/-
Verification of the answer-matching and session logic of the vocabulary
practice application (src/app.js), via a shallow embedding.

JavaScript strings are modelled as List Char (all characters that occur in
this code base are in the Basic Multilingual Plane, so a JS UTF-16 unit is a
scalar value).  String.prototype.toLowerCase is modelled on its ASCII range
(the only case mappings exercised by this program; kana have no case), and
String.prototype.trim on the ASCII whitespace characters.
-/
import Mathlib

namespace VocabPractice

/-- ASCII whitespace, as removed by the trim calls in app.js. -/
def isWS (c : Char) : Bool :=
  c == ' ' || c == '\t' || c == '\n' || c == '\r'

/-- JS String.prototype.trim: drop whitespace from both ends. -/
def trimList (xs : List Char) : List Char :=
  ((xs.dropWhile isWS).reverse.dropWhile isWS).reverse

/-- JS toLowerCase on one character (ASCII case mapping). -/
def jsToLowerChar (c : Char) : Char :=
  if 65 ≤ c.toNat ∧ c.toNat ≤ 90 then Char.ofNat (c.toNat + 32) else c

/-- JS String.prototype.toLowerCase. -/
def toLowerList (xs : List Char) : List Char :=
  xs.map jsToLowerChar

/-- JS hay.includes(needle): contiguous substring test. -/
def jsIncludes (hay needle : List Char) : Bool :=
  hay.tails.any (fun t => needle.isPrefixOf t)

/-- Worker for jsSplitOn; the fuel argument (initially the length of the
    text) makes the recursion structural and is never exhausted for the
    nonempty separators this program uses. -/
def jsSplitOnAux (sep : List Char) : Nat → List Char → List Char → List (List Char)
  | _, [], acc => [acc.reverse]
  | 0, xs, acc => [acc.reverse ++ xs]
  | fuel + 1, x :: rest, acc =>
      if sep.isPrefixOf (x :: rest) then
        acc.reverse :: jsSplitOnAux sep fuel ((x :: rest).drop sep.length) []
      else
        jsSplitOnAux sep fuel rest (x :: acc)

/-- JS str.split(sep) for a nonempty separator string. -/
def jsSplitOn (sep xs : List Char) : List (List Char) :=
  jsSplitOnAux sep xs.length xs []

/-- Worker for jsDedup, carrying the set of already seen elements. -/
def jsDedupAux (seen : List (List Char)) : List (List Char) → List (List Char)
  | [] => []
  | x :: rest =>
      if seen.contains x then jsDedupAux seen rest
      else x :: jsDedupAux (x :: seen) rest

/-- JS spread of a Set built from an array: keeps the first occurrence of
    each element, in order. -/
def jsDedup (l : List (List Char)) : List (List Char) :=
  jsDedupAux [] l

/-- A vocabulary entry as stored by the app: an id plus the two practiced
    fields (called word and translation in app.js). -/
structure Word where
  id : Nat
  word : List Char
  translation : List Char
deriving DecidableEq, Repr

/-- hiraganaToKatakana from areLanguageEquivalent: shift U+3041..U+3096 up
    by 0x60. -/
def hiraToKataChar (c : Char) : Char :=
  if 0x3041 ≤ c.toNat ∧ c.toNat ≤ 0x3096 then Char.ofNat (c.toNat + 0x60) else c

/-- katakanaToHiragana from areLanguageEquivalent and normalizeJapanese:
    shift U+30A1..U+30F6 down by 0x60. -/
def kataToHiraChar (c : Char) : Char :=
  if 0x30A1 ≤ c.toNat ∧ c.toNat ≤ 0x30F6 then Char.ofNat (c.toNat - 0x60) else c

def hiraganaToKatakana (xs : List Char) : List Char :=
  xs.map hiraToKataChar

def katakanaToHiragana (xs : List Char) : List Char :=
  xs.map kataToHiraChar

/-- normalizeJapanese: fold katakana to hiragana, then lower-case. -/
def normalizeJapanese (text : List Char) : List Char :=
  toLowerList (katakanaToHiragana text)

/-- The static commonPairs table of areJapaneseWordVariants. -/
def commonPairs : List (List Char × List Char) :=
  [("かいしゃ".data, "会社".data),
   ("がっこう".data, "学校".data),
   ("せんせい".data, "先生".data),
   ("がくせい".data, "学生".data),
   ("しごと".data, "仕事".data),
   ("でんわ".data, "電話".data),
   ("でんわばんごう".data, "電話番号".data),
   ("びょういん".data, "病院".data),
   ("ぎんこう".data, "銀行".data),
   ("としょかん".data, "図書館".data),
   ("こうえん".data, "公園".data),
   ("えき".data, "駅".data),
   ("みち".data, "道".data),
   ("いえ".data, "家".data),
   ("くるま".data, "車".data),
   ("でんしゃ".data, "電車".data),
   ("ひこうき".data, "飛行機".data),
   ("みずうみ".data, "湖".data),
   ("やま".data, "山".data),
   ("かわ".data, "川".data),
   ("うみ".data, "海".data),
   ("ばんごう".data, "番号".data),
   ("じゅうしょ".data, "住所".data),
   ("なまえ".data, "名前".data),
   ("ねんれい".data, "年齢".data),
   ("せいねんがっぴ".data, "生年月日".data),
   ("こくせき".data, "国籍".data)]

/-- JS commonPairs[k]: key lookup in the static table. -/
def lookupPair (k : List Char) : Option (List Char) :=
  (commonPairs.find? (fun p => p.1 == k)).map (fun p => p.2)

/-- The part equivalent used by areCompoundWordEquivalents:
    commonPairs[part] or else the key whose value is part. -/
def lookupEquiv (part : List Char) : Option (List Char) :=
  match lookupPair part with
  | some v => some v
  | none => (commonPairs.find? (fun p => p.2 == part)).map (fun p => p.1)

/-- areCompoundWordEquivalents(word1, word2, commonPairs): split the longer
    word at every interior point (i from 2 to length - 2), map both parts
    through the table, and compare the concatenation with the shorter word. -/
def areCompoundWordEquivalents (word1 word2 : List Char) : Bool :=
  let longer := if word1.length > word2.length then word1 else word2
  let shorter := if word1.length > word2.length then word2 else word1
  if longer.length ≥ 4 then
    (List.range' 2 (longer.length - 3)).any (fun i =>
      match lookupEquiv (longer.take i), lookupEquiv (longer.drop i) with
      | some e1, some e2 => (e1 ++ e2) == shorter
      | _, _ => false)
  else false

/-- The static lookup-table path of areJapaneseWordVariants:
    commonPairs[word1] === word2 || commonPairs[word2] === word1. -/
def lookupTableEquivalent (word1 word2 : List Char) : Bool :=
  (lookupPair word1 == some word2) || (lookupPair word2 == some word1)

/-- areJapaneseWordVariants(word1, word2). -/
def areJapaneseWordVariants (word1 word2 : List Char) : Bool :=
  let norm1 := normalizeJapanese word1
  let norm2 := normalizeJapanese word2
  if norm1 == norm2 then true
  else
    let longer := if norm1.length > norm2.length then norm1 else norm2
    let shorter := if norm1.length > norm2.length then norm2 else norm1
    if shorter.length ≥ 2 && jsIncludes longer shorter then true
    else if (longer.length > 2 && shorter.length > 2) &&
        (let commonLength := min (longer.length - 1) (min (shorter.length - 1) 3)
         longer.take commonLength == shorter.take commonLength) then true
    else if lookupTableEquivalent word1 word2 then true
    else areCompoundWordEquivalents word1 word2

/-- checkSemanticEquivalency(userAnswer, correctAnswer, allWords). -/
def checkSemanticEquivalency (userAnswer correctAnswer : List Char)
    (allWords : List Word) : Bool :=
  allWords.any (fun w =>
    (normalizeJapanese userAnswer == normalizeJapanese w.word
      || normalizeJapanese userAnswer == normalizeJapanese w.translation
      || normalizeJapanese correctAnswer == normalizeJapanese w.word
      || normalizeJapanese correctAnswer == normalizeJapanese w.translation)
    && areJapaneseWordVariants userAnswer correctAnswer)

/-- checkDynamicEquivalency(userAnswer, correctAnswer): the early-return
    loop over the vocabulary store, then the semantic fallback. -/
def checkDynamicEquivalency (vocab : List Word)
    (userAnswer correctAnswer : List Char) : Bool :=
  vocab.any (fun w =>
    (userAnswer == w.word && correctAnswer == w.translation)
    || (userAnswer == w.translation && correctAnswer == w.word)
    || ([toLowerList w.word, toLowerList w.translation].contains (toLowerList userAnswer)
        && [toLowerList w.word, toLowerList w.translation].contains (toLowerList correctAnswer))
    || (normalizeJapanese userAnswer == normalizeJapanese w.word
        && normalizeJapanese correctAnswer == normalizeJapanese w.translation)
    || (normalizeJapanese userAnswer == normalizeJapanese w.translation
        && normalizeJapanese correctAnswer == normalizeJapanese w.word))
  || checkSemanticEquivalency userAnswer correctAnswer vocab

/-- The script-fold path of areLanguageEquivalent: equality after folding
    both strings to hiragana, or after folding both to katakana. -/
def scriptFoldEquivalent (userAnswer correctAnswer : List Char) : Bool :=
  (katakanaToHiragana userAnswer == katakanaToHiragana correctAnswer)
  || (hiraganaToKatakana userAnswer == hiraganaToKatakana correctAnswer)

/-- areLanguageEquivalent(userAnswer, correctAnswer), with the vocabulary
    snapshot that checkDynamicEquivalency reads from the store. -/
def areLanguageEquivalent (vocab : List Word)
    (userAnswer correctAnswer : List Char) : Bool :=
  scriptFoldEquivalent userAnswer correctAnswer
  || checkDynamicEquivalency vocab userAnswer correctAnswer

/-- Inner loop of levenshteinDistance: fill one matrix row past its first
    cell.  Walks str1 and the previous row in lockstep; diag and up are
    matrix[i-1][j-1] and matrix[i-1][j], left is matrix[i][j-1]. -/
def buildRowAux (c2 : Char) : List Char → List Nat → Nat → List Nat
  | c1 :: s1rest, diag :: up :: prevrest, left =>
      (if c2 == c1 then diag else min (diag + 1) (min (left + 1) (up + 1)))
        :: buildRowAux c2 s1rest (up :: prevrest)
            (if c2 == c1 then diag else min (diag + 1) (min (left + 1) (up + 1)))
  | _, _, _ => []

/-- Outer loop body of levenshteinDistance: row i from row i-1; its first
    cell is i (the previous first cell plus one). -/
def buildRow (c2 : Char) (s1 : List Char) (prev : List Nat) : List Nat :=
  (prev.headD 0 + 1) :: buildRowAux c2 s1 prev (prev.headD 0 + 1)

/-- levenshteinDistance(str1, str2): the dynamic program of app.js, row by
    row over str2; returns matrix[str2.length][str1.length]. -/
def levenshteinDistance (str1 str2 : List Char) : Nat :=
  (str2.foldl (fun prev c2 => buildRow c2 str1 prev)
    (List.range (str1.length + 1))).getLastD 0

/-- Classic unit-cost Levenshtein distance (insert, delete, substitute at
    cost one), by the textbook recursion on first characters.  This is the
    specification-side definition the dynamic program is compared with. -/
def levClassic : List Char → List Char → Nat
  | [], ys => ys.length
  | xs, [] => xs.length
  | x :: xs, y :: ys =>
      if x = y then levClassic xs ys
      else 1 + min (levClassic xs ys)
            (min (levClassic (x :: xs) ys) (levClassic xs (y :: ys)))
termination_by xs ys => xs.length + ys.length

/-- Proof support: the row of Levenshtein distances the dynamic program
    maintains, described through levClassic.  The entry at offset k is the
    distance between the reversal of racc extended by the next k
    characters of str1 and the reversal of the processed part of str2
    (qrev holds that reversal directly). -/
def distRowFrom (qrev : List Char) : List Char → List Char → List Nat
  | racc, [] => [levClassic racc qrev]
  | racc, c1 :: s1rest =>
      levClassic racc qrev :: distRowFrom qrev (c1 :: racc) s1rest

/-- calculateSimilarity(str1, str2), with JS float arithmetic modelled by
    exact rationals (for the string lengths that can occur, the comparison
    against 0.8 is unaffected by double rounding). -/
def calculateSimilarity (str1 str2 : List Char) : ℚ :=
  if str1.length > str2.length then
    if str1.length = 0 then 1
    else ((str1.length : ℚ) - (levenshteinDistance str1 str2 : ℚ)) / (str1.length : ℚ)
  else
    if str2.length = 0 then 1
    else ((str2.length : ℚ) - (levenshteinDistance str2 str1 : ℚ)) / (str2.length : ℚ)

/-- The per-candidate test of the fuzzy loop in checkAnswerMatch:
    similarity above 0.8 and length difference at most 2. -/
def fuzzyAccept (normalizedUser possible : List Char) : Bool :=
  decide ((4 : ℚ)/5 < calculateSimilarity normalizedUser possible)
  && decide (((normalizedUser.length : ℤ) - (possible.length : ℤ)).natAbs ≤ 2)

/-- The separator list of checkAnswerMatch, in source order. -/
def separators : List (List Char) :=
  [[','], [';'], ['/'], ['|'], " or ".data, " and ".data]

/-- One pass of the separator loop: split every fragment containing the
    separator and trim the new parts; keep other fragments unchanged. -/
def expandStep (answers : List (List Char)) (sep : List Char) : List (List Char) :=
  answers.flatMap (fun answer =>
    if jsIncludes answer sep then (jsSplitOn sep answer).map trimList
    else [answer])

/-- The possibleAnswers computation of checkAnswerMatch: fold the separator
    list, then deduplicate and drop empty fragments. -/
def expandAnswers (normalizedCorrect : List Char) : List (List Char) :=
  (jsDedup (separators.foldl expandStep [normalizedCorrect])).filter
    (fun a => decide (0 < a.length))

/-- The candidate set derived from a correct-answer string: lower-case and
    trim, then expand along the separators. -/
def candidateSet (correctAnswer : List Char) : List (List Char) :=
  expandAnswers (trimList (toLowerList correctAnswer))

/-- checkAnswerMatch(userAnswer, correctAnswer) with the vocabulary
    snapshot used by the equivalence checks.  A JS falsy correct answer is
    the empty string. -/
def checkAnswerMatch (vocab : List Word)
    (userAnswer correctAnswer : List Char) : Bool :=
  if correctAnswer.isEmpty then false
  else
    let normalizedUser := trimList (toLowerList userAnswer)
    let normalizedCorrect := trimList (toLowerList correctAnswer)
    if normalizedUser == normalizedCorrect then true
    else if areLanguageEquivalent vocab normalizedUser normalizedCorrect then true
    else
      let possibleAnswers := expandAnswers normalizedCorrect
      if possibleAnswers.any (fun possible =>
          normalizedUser == possible
          || areLanguageEquivalent vocab normalizedUser possible
          || (jsIncludes possible normalizedUser
              && decide (2 ≤ normalizedUser.length))) then true
      else possibleAnswers.any (fun possible => fuzzyAccept normalizedUser possible)

/-- A row produced by parseCSV. -/
structure CSVWord where
  word : List Char
  translation : List Char
deriving DecidableEq, Repr

/-- parseCSVLine: split on commas outside double quotes; quote characters
    toggle the inQuotes flag and are dropped. -/
def parseCSVLineAux : List Char → Bool → List Char → List (List Char)
  | [], _, current => [current.reverse]
  | c :: rest, inQuotes, current =>
      if c == '"' then parseCSVLineAux rest (!inQuotes) current
      else if c == ',' && !inQuotes then
        current.reverse :: parseCSVLineAux rest inQuotes []
      else parseCSVLineAux rest inQuotes (c :: current)

def parseCSVLine (line : List Char) : List (List Char) :=
  parseCSVLineAux line false []

/-- The nonblank lines of the CSV text, as computed by parseCSV. -/
def csvLines (text : List Char) : List (List Char) :=
  (jsSplitOn ['\n'] text).filter (fun l => !(trimList l).isEmpty)

/-- The header heuristic of parseCSV as implemented: startIndex is 1 when
    the lower-cased FIRST LINE contains the text word. -/
def csvStartIndex (firstLine : List Char) : Nat :=
  if jsIncludes (toLowerList firstLine) "word".data then 1 else 0

/-- Modelled from the spec: the header heuristic as the specification
    states it, testing only the first CELL of line one (the implementation
    in app.js tests the whole line; this definition exists to compare the
    two). -/
def csvStartIndexSpec (firstLine : List Char) : Nat :=
  if jsIncludes (toLowerList ((parseCSVLine firstLine).headD []))
      "word".data then 1 else 0

/-- The data rows parsed from a list of lines: lines with at least two
    cells yield a word/translation pair with both cells trimmed. -/
def csvRows (lines : List (List Char)) : List CSVWord :=
  lines.filterMap (fun line =>
    let parts := parseCSVLine line
    if 2 ≤ parts.length then
      some ⟨trimList (parts.headD []), trimList ((parts.drop 1).headD [])⟩
    else none)

/-- parseCSV(text).  none models the TypeError the code throws when every
    line is blank (lines[0] is undefined); otherwise the rows starting
    after the heuristically detected header. -/
def parseCSV (text : List Char) : Option (List CSVWord) :=
  match csvLines text with
  | [] => none
  | l0 :: _ => some (csvRows ((csvLines text).drop (csvStartIndex l0)))

/-- One wrong-answer record as written by addWrongWord; the ISO timestamp
    string is modelled by a number that orders the same way. -/
structure WrongRecord where
  wordId : Nat
  word : List Char
  translation : List Char
  timestamp : Nat
deriving DecidableEq, Repr

/-- The record appended by addWrongWord(word) at a given time. -/
def mkWrongRecord (w : Word) (now : Nat) : WrongRecord :=
  ⟨w.id, w.word, w.translation, now⟩

/-- The comparator of getWrongWords: most recent timestamp first. -/
def tsGE (a b : WrongRecord) : Prop :=
  b.timestamp ≤ a.timestamp

instance : DecidableRel tsGE := fun a b => Nat.decLe b.timestamp a.timestamp

/-- The dedup loop of getWrongWords: keep the first record seen for each
    wordId. -/
def dedupByWordId (seen : List Nat) : List WrongRecord → List WrongRecord
  | [] => []
  | r :: rest =>
      if seen.contains r.wordId then dedupByWordId seen rest
      else r :: dedupByWordId (r.wordId :: seen) rest

/-- getWrongWords over a snapshot of the raw wrong-word log: sort by
    timestamp descending (a stable sort, as JS Array.prototype.sort), then
    deduplicate by wordId keeping the first, i.e. most recent, record. -/
def getWrongWords (log : List WrongRecord) : List WrongRecord :=
  dedupByWordId [] (List.insertionSort tsGE log)

/-- In-place Fisher-Yates swap steps of shuffleArray, with the drawn
    random indices supplied as a list (one draw per iteration, i counting
    down from length - 1 to 1). -/
def swapList {α : Type} (l : List α) (i j : Nat) : List α :=
  match l[i]?, l[j]? with
  | some a, some b => (l.set i b).set j a
  | _, _ => l

def shuffleAux {α : Type} : Nat → List Nat → List α → List α
  | 0, _, arr => arr
  | _ + 1, [], arr => arr
  | i + 1, j :: js, arr => shuffleAux i js (swapList arr (i + 1) j)

/-- shuffleArray(array) with the sequence of Math.random draws made
    explicit. -/
def shuffleArray {α : Type} (arr : List α) (js : List Nat) : List α :=
  shuffleAux (arr.length - 1) js arr

/-- The practice word list prepared by startPractice: optional shuffle,
    then truncation to the configured session length (none models the
    value all). -/
def startPracticeWords (shuffled : Bool) (js : List Nat)
    (allWords : List Word) (sessionLength : Option Nat) : List Word :=
  let ws := if shuffled then shuffleArray allWords js else allWords
  match sessionLength with
  | some n => ws.take n
  | none => ws

/-- maxSessionWords as set by startPractice. -/
def maxSessionWordsFor (ws : List Word) (sessionLength : Option Nat) : Nat :=
  match sessionLength with
  | some n => n
  | none => ws.length

/-- The question loop: a question is asked at each index until the
    nextWord guard (index reaching the word list length or
    maxSessionWords) ends the session; fuel-structural. -/
def countQuestions : Nat → Nat → Nat → Nat → Nat
  | 0, _, _, _ => 0
  | fuel + 1, len, maxW, idx =>
      if idx < len ∧ idx < maxW then 1 + countQuestions fuel len maxW (idx + 1)
      else 0

/-- The number of questions a session with the given prepared-list length
    and maxSessionWords asks. -/
def sessionQuestionTotal (len maxW : Nat) : Nat :=
  countQuestions (len + maxW) len maxW 0

/-- JS Math.round: round half toward positive infinity. -/
def jsRound (q : ℚ) : ℤ :=
  ⌊q + 1/2⌋

/-- The sessionAccuracy computation of endPractice. -/
def sessionAccuracy (sessionCorrect sessionTotal : Nat) : ℤ :=
  if 0 < sessionTotal then
    jsRound ((sessionCorrect : ℚ) / (sessionTotal : ℚ) * 100)
  else 0

/-- Cumulative practiceStats. -/
structure Stats where
  sessions : Nat
  correct : Nat
  total : Nat
deriving DecidableEq, Repr

/-- The mutable application state touched by checkAnswer and stopPractice;
    the three display fields model the DOM styles stopPractice writes. -/
structure AppState where
  practiceStats : Stats
  wrongWords : List WrongRecord
  sessionCorrect : Nat
  sessionTotal : Nat
  currentPracticeIndex : Nat
  setupDisplay : List Char
  controlsDisplay : List Char
  practiceAreaDisplay : List Char
deriving DecidableEq, Repr

/-- The state effect of checkAnswer in a typed-answer mode: if the answer
    input element is missing, alert and return with nothing changed;
    otherwise normalize the typed value, run the Answer Matcher against
    the current word, bump the counters, and log a wrong word on a miss. -/
def checkAnswerStep (vocab : List Word) (st : AppState) (inputPresent : Bool)
    (inputValue : List Char) (word : Word) (now : Nat) : AppState :=
  if !inputPresent then st
  else
    let userAnswer := toLowerList (trimList inputValue)
    let isCorrect := checkAnswerMatch vocab userAnswer word.translation
    let st1 :=
      { st with
        practiceStats := { st.practiceStats with total := st.practiceStats.total + 1 }
        sessionTotal := st.sessionTotal + 1 }
    if isCorrect then
      { st1 with
        practiceStats := { st1.practiceStats with correct := st1.practiceStats.correct + 1 }
        sessionCorrect := st1.sessionCorrect + 1 }
    else
      { st1 with wrongWords := st1.wrongWords ++ [mkWrongRecord word now] }

/-- stopPractice: restores the setup screen; it only writes the three
    display styles. -/
def stopPractice (st : AppState) : AppState :=
  { st with
    setupDisplay := "grid".data
    controlsDisplay := "flex".data
    practiceAreaDisplay := "none".data }

/-- A concrete state used to evaluate the answer-submission step. -/
def egState : AppState :=
  ⟨⟨0, 0, 0⟩, [], 0, 0, 0, [], [], []⟩

/-- A concrete vocabulary word used to evaluate the answer-submission
    step. -/
def egWord : Word :=
  ⟨1, "hello".data, "hi".data⟩

/-- A concrete CSV text whose first cell lacks the text word but whose
    first line contains it in the second cell. -/
def csvEg : List Char :=
  "gato,word\nperro,dog".data

instance : IsTotal WrongRecord tsGE :=
  ⟨fun a b => Nat.le_total b.timestamp a.timestamp⟩

instance : IsTrans WrongRecord tsGE :=
  ⟨fun _ _ _ h1 h2 => Nat.le_trans h2 h1⟩

/- ------------------------------------------------------------------ -/
/- Supporting lemmas                                                   -/
/- ------------------------------------------------------------------ -/

theorem toNat_ofNat_valid (n : Nat) (h : n.isValidChar) :
    (Char.ofNat n).toNat = n := by
  simp [Char.ofNat, h, Char.ofNatAux, Char.toNat, UInt32.toNat,
    BitVec.toNat_ofNatLt]

theorem listBeq_comm (a b : List Char) : (a == b) = (b == a) := by
  by_cases h : a = b
  · subst h; rfl
  · rw [beq_eq_false_iff_ne.mpr h, beq_eq_false_iff_ne.mpr (Ne.symm h)]

theorem kataToHiraChar_eq_self (c : Char)
    (h : ¬(0x30A1 ≤ c.toNat ∧ c.toNat ≤ 0x30F6)) : kataToHiraChar c = c := by
  simp [kataToHiraChar, h]

theorem jsToLowerChar_eq_self (c : Char)
    (h : ¬(65 ≤ c.toNat ∧ c.toNat ≤ 90)) : jsToLowerChar c = c := by
  simp [jsToLowerChar, h]

/-- The character map underlying normalizeJapanese fixes its own image. -/
theorem normJapaneseChar_idem (c : Char) :
    jsToLowerChar (kataToHiraChar (jsToLowerChar (kataToHiraChar c)))
      = jsToLowerChar (kataToHiraChar c) := by
  by_cases hk : 0x30A1 ≤ c.toNat ∧ c.toNat ≤ 0x30F6
  · have hvalid : (c.toNat - 0x60).isValidChar := Or.inl (by omega)
    have h1 : kataToHiraChar c = Char.ofNat (c.toNat - 0x60) := by
      simp [kataToHiraChar, hk]
    have h2 : (kataToHiraChar c).toNat = c.toNat - 0x60 := by
      rw [h1, toNat_ofNat_valid _ hvalid]
    have h3 : jsToLowerChar (kataToHiraChar c) = kataToHiraChar c :=
      jsToLowerChar_eq_self _ (by omega)
    have h4 : kataToHiraChar (kataToHiraChar c) = kataToHiraChar c :=
      kataToHiraChar_eq_self _ (by omega)
    rw [h3, h4, h3]
  · have h1 : kataToHiraChar c = c := kataToHiraChar_eq_self _ hk
    rw [h1]
    by_cases hl : 65 ≤ c.toNat ∧ c.toNat ≤ 90
    · have hvalid : (c.toNat + 32).isValidChar := Or.inl (by omega)
      have h2 : jsToLowerChar c = Char.ofNat (c.toNat + 32) := by
        simp [jsToLowerChar, hl]
      have h3 : (jsToLowerChar c).toNat = c.toNat + 32 := by
        rw [h2, toNat_ofNat_valid _ hvalid]
      have h4 : kataToHiraChar (jsToLowerChar c) = jsToLowerChar c :=
        kataToHiraChar_eq_self _ (by omega)
      rw [h4, jsToLowerChar_eq_self _ (by omega)]
    · have h2 : jsToLowerChar c = c := jsToLowerChar_eq_self _ hl
      rw [h2, h1, h2]

/- ------------------------------------------------------------------ -/
/- C10: normalizeJapanese is idempotent                                -/
/- ------------------------------------------------------------------ -/

/-- C10: the Japanese normalization fold is idempotent: applying
    normalizeJapanese twice gives the same string as applying it once
    (katakana maps into the hiragana range, which the fold leaves alone,
    and ASCII lower-casing is idempotent). -/
theorem spec_c10_normalizeJapanese_idempotent (x : List Char) :
    normalizeJapanese (normalizeJapanese x) = normalizeJapanese x := by
  simp only [normalizeJapanese, toLowerList, katakanaToHiragana,
    List.map_map]
  induction x with
  | nil => rfl
  | cons c rest ih =>
      simp only [List.map_cons, List.cons.injEq]
      exact ⟨normJapaneseChar_idem c, ih⟩

/- ------------------------------------------------------------------ -/
/- C9: symmetry of the script-fold and lookup-table paths              -/
/- ------------------------------------------------------------------ -/

/-- C9: the script-fold path (hiragana/katakana folding with equality in
    either folded form) and the static lookup-table path of the script
    equivalence checker are symmetric in their two string arguments. -/
theorem spec_c9_equivalence_paths_symmetric (x y : List Char) :
    scriptFoldEquivalent x y = scriptFoldEquivalent y x
    ∧ lookupTableEquivalent x y = lookupTableEquivalent y x := by
  constructor
  · simp only [scriptFoldEquivalent]
    rw [listBeq_comm (katakanaToHiragana x) (katakanaToHiragana y),
      listBeq_comm (hiraganaToKatakana x) (hiraganaToKatakana y)]
  · simp only [lookupTableEquivalent]
    exact Bool.or_comm _ _

/- ------------------------------------------------------------------ -/
/- C8: stopPractice has no effect on stats or the wrong-word log       -/
/- ------------------------------------------------------------------ -/

/-- C8: stopping a session mid-flight only rewrites the three display
    styles: cumulative practiceStats and the stored wrong-word records are
    unchanged, and an answer committed just before the stop keeps its
    already-recorded increments (total bumped by one, and the wrong-word
    append preserved on a miss). -/
theorem spec_c8_stopPractice_frame (st : AppState) :
    (stopPractice st).practiceStats = st.practiceStats
    ∧ (stopPractice st).wrongWords = st.wrongWords
    ∧ (∀ (vocab : List Word) (value : List Char) (word : Word) (now : Nat),
        (stopPractice (checkAnswerStep vocab st true value word now)).practiceStats.total
          = st.practiceStats.total + 1
        ∧ st.wrongWords.length ≤
            (stopPractice (checkAnswerStep vocab st true value word now)).wrongWords.length) := by
  refine ⟨rfl, rfl, ?_⟩
  intro vocab value word now
  simp only [checkAnswerStep, stopPractice, Bool.not_true]
  by_cases h : checkAnswerMatch vocab (toLowerList (trimList value)) word.translation
  · simp [h]
  · simp [h]

/- ------------------------------------------------------------------ -/
/- C6: the wrong-words view keeps the latest record per wordId         -/
/- ------------------------------------------------------------------ -/

theorem dedupByWordId_subset :
    ∀ (seen : List Nat) (l : List WrongRecord) (v : WrongRecord),
      v ∈ dedupByWordId seen l → v ∈ l := by
  intro seen l
  induction l generalizing seen with
  | nil => intro v hv; simp [dedupByWordId] at hv
  | cons r rest ih =>
      intro v hv
      simp only [dedupByWordId] at hv
      by_cases h : seen.contains r.wordId
      · rw [if_pos h] at hv
        exact List.mem_cons_of_mem _ (ih seen v hv)
      · rw [if_neg h] at hv
        rcases List.mem_cons.mp hv with h1 | h1
        · exact h1 ▸ List.mem_cons_self _ _
        · exact List.mem_cons_of_mem _ (ih _ v h1)

theorem dedupByWordId_nodup :
    ∀ (seen : List Nat) (l : List WrongRecord),
      ((dedupByWordId seen l).map (fun r => r.wordId)).Nodup
      ∧ ∀ v ∈ dedupByWordId seen l, ¬ seen.contains v.wordId := by
  intro seen l
  induction l generalizing seen with
  | nil => simp [dedupByWordId]
  | cons r rest ih =>
      simp only [dedupByWordId]
      by_cases h : seen.contains r.wordId
      · rw [if_pos h]
        exact ih seen
      · rw [if_neg h]
        obtain ⟨ihd, ihs⟩ := ih (r.wordId :: seen)
        refine ⟨?_, ?_⟩
        · simp only [List.map_cons, List.nodup_cons]
          refine ⟨?_, ihd⟩
          intro hmem
          rcases List.mem_map.mp hmem with ⟨v, hv, hid⟩
          exact ihs v hv (by simp [hid])
        · intro v hv
          rcases List.mem_cons.mp hv with h1 | h1
          · exact h1 ▸ h
          · intro hc
            exact ihs v h1 (by simp at hc ⊢; exact Or.inr hc)

theorem dedupByWordId_covers :
    ∀ (seen : List Nat) (l : List WrongRecord) (r : WrongRecord),
      List.Sorted tsGE l → r ∈ l → ¬ seen.contains r.wordId →
      ∃ v ∈ dedupByWordId seen l,
        v.wordId = r.wordId ∧ r.timestamp ≤ v.timestamp := by
  intro seen l
  induction l generalizing seen with
  | nil => intro r _ hr; simp at hr
  | cons x rest ih =>
      intro r hsort hr hseen
      have hsort' : List.Sorted tsGE rest := hsort.of_cons
      simp only [dedupByWordId]
      rcases List.mem_cons.mp hr with h1 | h1
      · subst h1
        rw [if_neg hseen]
        exact ⟨r, List.mem_cons_self _ _, rfl, le_refl _⟩
      · by_cases hx : seen.contains x.wordId
        · rw [if_pos hx]
          exact ih seen r hsort' h1 hseen
        · rw [if_neg hx]
          by_cases hid : x.wordId = r.wordId
          · refine ⟨x, List.mem_cons_self _ _, hid, ?_⟩
            exact (List.rel_of_sorted_cons hsort) r h1
          · have hseen' : ¬ (x.wordId :: seen).contains r.wordId := by
              simp only [List.contains_cons, Bool.or_eq_true, beq_iff_eq] at *
              push_neg
              exact ⟨fun he => hid he.symm, by simpa using hseen⟩
            obtain ⟨v, hv, hvid, hvts⟩ := ih _ r hsort' h1 hseen'
            exact ⟨v, List.mem_cons_of_mem _ hv, hvid, hvts⟩

/-- C6: for every raw wrong-word log, the computed wrong-words view has
    pairwise distinct wordIds, every view entry comes from the log, every
    logged record is represented by a view entry with the same wordId and
    a timestamp at least as recent, and on the two-record example with one
    wordId and two timestamps the view is exactly the later record. -/
theorem spec_c6_wrong_words_dedup (log : List WrongRecord) :
    ((getWrongWords log).map (fun r => r.wordId)).Nodup
    ∧ (∀ v ∈ getWrongWords log, v ∈ log)
    ∧ (∀ r ∈ log, ∃ v ∈ getWrongWords log,
        v.wordId = r.wordId ∧ r.timestamp ≤ v.timestamp)
    ∧ getWrongWords [⟨1, [], [], 5⟩, ⟨1, [], [], 9⟩] = [⟨1, [], [], 9⟩] := by
  have hperm := List.perm_insertionSort tsGE log
  refine ⟨(dedupByWordId_nodup [] _).1, ?_, ?_, by decide⟩
  · intro v hv
    exact hperm.mem_iff.mp (dedupByWordId_subset [] _ v hv)
  · intro r hr
    obtain ⟨v, hv, hvid, hvts⟩ :=
      dedupByWordId_covers [] (List.insertionSort tsGE log) r
        (List.sorted_insertionSort tsGE log) (hperm.mem_iff.mpr hr)
        (by simp)
    exact ⟨v, hv, hvid, hvts⟩

/- ------------------------------------------------------------------ -/
/- C1: candidate-set membership is accepted                            -/
/- ------------------------------------------------------------------ -/

/-- C1: the Answer Matcher derives its candidate set by lower-casing and
    trimming the correct answer and repeatedly splitting on the six
    separators, trimming, dropping empties and deduplicating (the
    candidateSet definition); any user input whose lower-cased trimmed
    form is a member of that set is accepted, and on the given examples
    the candidate set of cat, feline / kitty is exactly those three words
    and hello, hi accepts both hello and hi. -/
theorem spec_c1_candidate_membership :
    (∀ (vocab : List Word) (user correct : List Char),
      trimList (toLowerList user) ∈ candidateSet correct →
      checkAnswerMatch vocab user correct = true)
    ∧ candidateSet "cat, feline / kitty".data
        = ["cat".data, "feline".data, "kitty".data]
    ∧ checkAnswerMatch [] "hello".data "hello, hi".data = true
    ∧ checkAnswerMatch [] "hi".data "hello, hi".data = true := by
  refine ⟨?_, by decide, by decide, by decide⟩
  intro vocab user correct hmem
  simp only [candidateSet] at hmem
  by_cases hc : correct.isEmpty
  · have hnil : correct = [] := by
      cases correct with
      | nil => rfl
      | cons a l => simp [List.isEmpty] at hc
    rw [hnil] at hmem
    have : expandAnswers (trimList (toLowerList [])) = [] := by decide
    rw [this] at hmem
    simp at hmem
  · simp only [checkAnswerMatch]
    rw [if_neg (by simpa using hc)]
    by_cases h1 : trimList (toLowerList user) == trimList (toLowerList correct)
    · simp [h1]
    · by_cases h2 : areLanguageEquivalent vocab (trimList (toLowerList user))
          (trimList (toLowerList correct))
      · simp [h1, h2]
      · have han : (expandAnswers (trimList (toLowerList correct))).any
            (fun possible =>
              trimList (toLowerList user) == possible
              || areLanguageEquivalent vocab (trimList (toLowerList user)) possible
              || (jsIncludes possible (trimList (toLowerList user))
                  && decide (2 ≤ (trimList (toLowerList user)).length))) = true := by
          refine List.any_eq_true.mpr ⟨trimList (toLowerList user), hmem, ?_⟩
          simp
        simp [h1, h2, han]

/- ------------------------------------------------------------------ -/
/- C3: the containment rule                                           -/
/- ------------------------------------------------------------------ -/

/-- C3: if some candidate contains the normalized user input as a
    substring and that input has length at least 2, the Answer Matcher
    accepts; the containment test itself is conjoined with the length
    bound, so an input of length below 2 never passes it; and on correct
    answer a dog, input dog is accepted while input d is rejected. -/
theorem spec_c3_containment_rule :
    (∀ (vocab : List Word) (user correct p : List Char),
      p ∈ candidateSet correct →
      jsIncludes p (trimList (toLowerList user)) = true →
      2 ≤ (trimList (toLowerList user)).length →
      checkAnswerMatch vocab user correct = true)
    ∧ (∀ (p u : List Char), u.length < 2 →
        (jsIncludes p u && decide (2 ≤ u.length)) = false)
    ∧ checkAnswerMatch [] "dog".data "a dog".data = true
    ∧ checkAnswerMatch [] "d".data "a dog".data = false := by
  refine ⟨?_, ?_, by decide, by with_unfolding_all decide⟩
  · intro vocab user correct p hp hinc hlen
    simp only [candidateSet] at hp
    by_cases hc : correct.isEmpty
    · have hnil : correct = [] := by
        cases correct with
        | nil => rfl
        | cons a l => simp [List.isEmpty] at hc
      rw [hnil] at hp
      have : expandAnswers (trimList (toLowerList [])) = [] := by decide
      rw [this] at hp
      simp at hp
    · simp only [checkAnswerMatch]
      rw [if_neg (by simpa using hc)]
      by_cases h1 : trimList (toLowerList user) == trimList (toLowerList correct)
      · simp [h1]
      · by_cases h2 : areLanguageEquivalent vocab (trimList (toLowerList user))
            (trimList (toLowerList correct))
        · simp [h1, h2]
        · have han : (expandAnswers (trimList (toLowerList correct))).any
              (fun possible =>
                trimList (toLowerList user) == possible
                || areLanguageEquivalent vocab (trimList (toLowerList user)) possible
                || (jsIncludes possible (trimList (toLowerList user))
                    && decide (2 ≤ (trimList (toLowerList user)).length))) = true := by
            refine List.any_eq_true.mpr ⟨p, hp, ?_⟩
            simp [hinc, hlen]
          simp [h1, h2, han]
  · intro p u hu
    have : decide (2 ≤ u.length) = false := by
      simp; omega
    simp [this]

/- ------------------------------------------------------------------ -/
/- C4: empty-input submissions (corrected)                             -/
/- ------------------------------------------------------------------ -/

/-- C4 counterexample: a submission whose input element is present but
    whose value is the empty string is NOT rejected before the Answer
    Matcher: it mutates the state (the total counter is bumped and a
    wrong-word record is appended), refuting the claim that every
    missing-or-empty submission leaves all state unchanged. -/
theorem spec_c4_counterexample :
    checkAnswerStep [] egState true [] egWord 0 ≠ egState
    ∧ (checkAnswerStep [] egState true [] egWord 0).practiceStats.total
        = egState.practiceStats.total + 1
    ∧ (checkAnswerStep [] egState true [] egWord 0).wrongWords ≠ [] := by
  refine ⟨by with_unfolding_all decide, by with_unfolding_all decide,
    by with_unfolding_all decide⟩

/-- C4 amended: only a submission whose answer-input element is missing is
    rejected before the Answer Matcher with no state mutated; a present
    but empty input value is passed to the Answer Matcher like any other
    answer, and when the matcher rejects it the session and cumulative
    counters are incremented and a wrong-word record is appended. -/
theorem spec_c4_empty_input (vocab : List Word) (st : AppState)
    (value : List Char) (word : Word) (now : Nat) :
    checkAnswerStep vocab st false value word now = st
    ∧ (checkAnswerMatch vocab (toLowerList (trimList [])) word.translation = false →
        (checkAnswerStep vocab st true [] word now).practiceStats.total
          = st.practiceStats.total + 1
        ∧ (checkAnswerStep vocab st true [] word now).wrongWords
          = st.wrongWords ++ [mkWrongRecord word now]) := by
  constructor
  · simp [checkAnswerStep]
  · intro h
    constructor
    · simp [checkAnswerStep, h]
    · simp [checkAnswerStep, h]

theorem spec_c4_witness :
    checkAnswerStep [] egState false [] egWord 0 = egState
    ∧ (checkAnswerStep [] egState true [] egWord 0).practiceStats.total
        = egState.practiceStats.total + 1 :=
  ⟨(spec_c4_empty_input [] egState [] egWord 0).1,
   ((spec_c4_empty_input [] egState [] egWord 0).2 (by with_unfolding_all decide)).1⟩

/- ------------------------------------------------------------------ -/
/- C5: the CSV header heuristic (corrected)                            -/
/- ------------------------------------------------------------------ -/

/-- C5 counterexample: on the text gato,word newline perro,dog the first
    cell of line one does not contain word (the spec-side index is 0, so
    per the claim the first line must be parsed as a data row), yet the
    implementation skips line one because the whole line contains word:
    only the perro row is returned. -/
theorem spec_c5_counterexample :
    parseCSV csvEg = some [⟨"perro".data, "dog".data⟩]
    ∧ csvStartIndexSpec "gato,word".data = 0
    ∧ csvStartIndex "gato,word".data = 1 := by
  refine ⟨by decide, by decide, by decide⟩

/-- C5 amended: CSV import skips the first nonblank line as a header if
    and only if the lower-cased WHOLE first line contains word; when the
    first line does not contain word anywhere, it is parsed as a data
    row. -/
theorem spec_c5_header_heuristic (text l0 : List Char)
    (rest : List (List Char)) (h : csvLines text = l0 :: rest) :
    parseCSV text = some (csvRows ((l0 :: rest).drop (csvStartIndex l0)))
    ∧ (csvStartIndex l0 = 1 ↔ jsIncludes (toLowerList l0) "word".data = true) := by
  constructor
  · unfold parseCSV
    rw [h]
  · unfold csvStartIndex
    by_cases hw : jsIncludes (toLowerList l0) "word".data
    · simp [hw]
    · simp [hw]

theorem spec_c5_witness :
    parseCSV csvEg
      = some (csvRows ((["gato,word".data, "perro,dog".data]).drop
          (csvStartIndex "gato,word".data)))
    ∧ (csvStartIndex "gato,word".data = 1
        ↔ jsIncludes (toLowerList "gato,word".data) "word".data = true) :=
  spec_c5_header_heuristic csvEg "gato,word".data ["perro,dog".data] (by decide)

theorem spec_c1_witness :
    checkAnswerMatch [] "hi".data "hello, hi".data = true :=
  spec_c1_candidate_membership.1 [] "hi".data "hello, hi".data (by decide)

theorem spec_c3_witness :
    checkAnswerMatch [] "dog".data "a dog".data = true :=
  spec_c3_containment_rule.1 [] "dog".data "a dog".data "a dog".data
    (by decide) (by decide) (by decide)

theorem spec_c6_witness :
    ∃ v ∈ getWrongWords [⟨1, [], [], 5⟩, ⟨1, [], [], 9⟩],
      v.wordId = 1 ∧ 5 ≤ v.timestamp :=
  (spec_c6_wrong_words_dedup [⟨1, [], [], 5⟩, ⟨1, [], [], 9⟩]).2.2.1
    ⟨1, [], [], 5⟩ (by decide)

/- ------------------------------------------------------------------ -/
/- C7: session truncation and the end-of-session accuracy              -/
/- ------------------------------------------------------------------ -/

theorem swapList_length {α : Type} (l : List α) (i j : Nat) :
    (swapList l i j).length = l.length := by
  unfold swapList
  cases l[i]? <;> cases l[j]? <;> simp

theorem shuffleAux_length {α : Type} :
    ∀ (i : Nat) (js : List Nat) (arr : List α),
      (shuffleAux i js arr).length = arr.length := by
  intro i
  induction i with
  | zero => intro js arr; rfl
  | succ n ih =>
      intro js arr
      cases js with
      | nil => rfl
      | cons j js' => rw [shuffleAux, ih, swapList_length]

theorem shuffleArray_length {α : Type} (arr : List α) (js : List Nat) :
    (shuffleArray arr js).length = arr.length :=
  shuffleAux_length _ js arr

theorem countQuestions_eq :
    ∀ (fuel len maxW idx : Nat), min len maxW ≤ idx + fuel →
      countQuestions fuel len maxW idx = min len maxW - idx := by
  intro fuel
  induction fuel with
  | zero =>
      intro len maxW idx h
      simp only [countQuestions]
      omega
  | succ n ih =>
      intro len maxW idx h
      simp only [countQuestions]
      by_cases hlt : idx < len ∧ idx < maxW
      · rw [if_pos hlt, ih len maxW (idx + 1) (by omega)]
        omega
      · rw [if_neg hlt]
        omega

/-- C7: a session configured with numeric length n over at least n
    available words prepares exactly n practice words whatever the
    ordering mode and whatever random draws the shuffle makes, the
    question loop then asks exactly n questions, and the end-of-session
    summary reports round(correct/answered*100) when answered is positive
    and 0 when nothing was answered. -/
theorem spec_c7_session_length_accuracy (shuffled : Bool) (js : List Nat)
    (words : List Word) (n : Nat) (hn : n ≤ words.length) :
    (startPracticeWords shuffled js words (some n)).length = n
    ∧ sessionQuestionTotal (startPracticeWords shuffled js words (some n)).length
        (maxSessionWordsFor words (some n)) = n
    ∧ (∀ c t : Nat,
        (0 < t → sessionAccuracy c t = jsRound ((c : ℚ) / (t : ℚ) * 100))
        ∧ (t = 0 → sessionAccuracy c t = 0)) := by
  have hlen : (startPracticeWords shuffled js words (some n)).length = n := by
    unfold startPracticeWords
    cases shuffled with
    | false => simp; omega
    | true => simp [shuffleArray_length]; omega
  refine ⟨hlen, ?_, ?_⟩
  · rw [hlen]
    unfold sessionQuestionTotal maxSessionWordsFor
    rw [countQuestions_eq (n + n) n n 0 (by omega)]
    omega
  · intro c t
    constructor
    · intro ht
      unfold sessionAccuracy
      rw [if_pos ht]
    · intro ht
      subst ht
      unfold sessionAccuracy
      simp

theorem spec_c7_witness :
    (startPracticeWords true [] (List.replicate 50 ⟨0, ['a'], ['b']⟩)
        (some 10)).length = 10
    ∧ sessionQuestionTotal
        (startPracticeWords true [] (List.replicate 50 ⟨0, ['a'], ['b']⟩)
          (some 10)).length
        (maxSessionWordsFor (List.replicate 50 ⟨0, ['a'], ['b']⟩) (some 10)) = 10 :=
  ⟨(spec_c7_session_length_accuracy true [] _ 10 (by simp)).1,
   (spec_c7_session_length_accuracy true [] _ 10 (by simp)).2.1⟩

/- ------------------------------------------------------------------ -/
/- C2: the similarity scorer                                           -/
/- ------------------------------------------------------------------ -/

theorem levClassic_nil_left (ys : List Char) : levClassic [] ys = ys.length := by
  cases ys <;> simp [levClassic]

theorem levClassic_nil_right (xs : List Char) : levClassic xs [] = xs.length := by
  cases xs <;> simp [levClassic]

theorem levClassic_cons_cons (x y : Char) (xs ys : List Char) :
    levClassic (x :: xs) (y :: ys) =
      if x = y then levClassic xs ys
      else 1 + min (levClassic xs ys)
            (min (levClassic (x :: xs) ys) (levClassic xs (y :: ys))) := by
  simp [levClassic]

/-- The recurrence of levClassic on last characters: the mirror image of
    its defining recursion, proved by strong induction on the total
    length. -/
theorem levClassic_concat_aux :
    ∀ (n : Nat) (xs ys : List Char) (a b : Char),
      xs.length + ys.length ≤ n →
      levClassic (xs ++ [a]) (ys ++ [b]) =
        if a = b then levClassic xs ys
        else 1 + min (levClassic xs ys)
              (min (levClassic (xs ++ [a]) ys) (levClassic xs (ys ++ [b]))) := by
  intro n
  induction n with
  | zero =>
      intro xs ys a b h
      have hx : xs = [] := List.length_eq_zero.mp (by omega)
      have hy : ys = [] := List.length_eq_zero.mp (by omega)
      subst hx; subst hy
      by_cases hab : a = b <;> simp [levClassic, hab]
  | succ n ih =>
      intro xs ys a b h
      cases xs with
      | nil =>
          cases ys with
          | nil => by_cases hab : a = b <;> simp [levClassic, hab]
          | cons y ys' =>
              have h1 := ih [] ys' a b (by simp at h ⊢; omega)
              simp only [List.nil_append, List.cons_append] at h1 ⊢
              rw [levClassic_cons_cons a y, levClassic_cons_cons a y, h1]
              simp only [levClassic_nil_left, levClassic_nil_right,
                List.length_append, List.length_cons, List.length_nil]
              split_ifs <;> omega
      | cons x xs' =>
          cases ys with
          | nil =>
              have h1 := ih xs' [] a b (by simp at h ⊢; omega)
              simp only [List.nil_append, List.cons_append] at h1 ⊢
              rw [levClassic_cons_cons x b, levClassic_cons_cons x b, h1]
              simp only [levClassic_nil_left, levClassic_nil_right,
                List.length_append, List.length_cons, List.length_nil]
              split_ifs <;> omega
          | cons y ys' =>
              have h1 := ih xs' ys' a b (by simp at h ⊢; omega)
              have h2 := ih (x :: xs') ys' a b (by simp at h ⊢; omega)
              have h3 := ih xs' (y :: ys') a b (by simp at h ⊢; omega)
              simp only [List.cons_append] at h1 h2 h3 ⊢
              rw [levClassic_cons_cons x y (xs' ++ [a]) (ys' ++ [b]), h1, h2, h3,
                levClassic_cons_cons x y xs' ys',
                levClassic_cons_cons x y (xs' ++ [a]) ys',
                levClassic_cons_cons x y xs' (ys' ++ [b])]
              by_cases hxy : x = y
              · by_cases hab : a = b
                · simp only [if_pos hxy, if_pos hab]
                · simp only [if_pos hxy, if_neg hab]
              · by_cases hab : a = b
                · simp only [if_neg hxy, if_pos hab]
                · simp only [if_neg hxy, if_neg hab]
                  generalize levClassic xs' ys' = d00
                  generalize levClassic (x :: xs') ys' = dx0
                  generalize levClassic xs' (y :: ys') = d0y
                  generalize levClassic (xs' ++ [a]) ys' = dA0
                  generalize levClassic (x :: (xs' ++ [a])) ys' = dxA0
                  generalize levClassic (xs' ++ [a]) (y :: ys') = dA0y
                  generalize levClassic xs' (ys' ++ [b]) = d0B
                  generalize levClassic (x :: xs') (ys' ++ [b]) = dx0B
                  generalize levClassic xs' (y :: (ys' ++ [b])) = d0yB
                  simp only [min_add_add_left]
                  ac_rfl

theorem levClassic_concat (xs ys : List Char) (a b : Char) :
    levClassic (xs ++ [a]) (ys ++ [b]) =
      if a = b then levClassic xs ys
      else 1 + min (levClassic xs ys)
            (min (levClassic (xs ++ [a]) ys) (levClassic xs (ys ++ [b]))) :=
  levClassic_concat_aux (xs.length + ys.length) xs ys a b le_rfl

/-- Levenshtein distance is invariant under reversing both strings. -/
theorem levClassic_reverse_aux :
    ∀ (n : Nat) (xs ys : List Char), xs.length + ys.length ≤ n →
      levClassic xs.reverse ys.reverse = levClassic xs ys := by
  intro n
  induction n with
  | zero =>
      intro xs ys h
      have hx : xs = [] := List.length_eq_zero.mp (by omega)
      have hy : ys = [] := List.length_eq_zero.mp (by omega)
      subst hx; subst hy; rfl
  | succ n ih =>
      intro xs ys h
      cases xs with
      | nil =>
          simp [levClassic_nil_left]
      | cons x xs' =>
          cases ys with
          | nil => simp [levClassic_nil_right]
          | cons y ys' =>
              rw [List.reverse_cons, List.reverse_cons, levClassic_concat,
                levClassic_cons_cons,
                ih xs' ys' (by simp at h ⊢; omega),
                ← List.reverse_cons x xs', ← List.reverse_cons y ys',
                ih (x :: xs') ys' (by simp at h ⊢; omega),
                ih xs' (y :: ys') (by simp at h ⊢; omega)]

theorem levClassic_reverse (xs ys : List Char) :
    levClassic xs.reverse ys.reverse = levClassic xs ys :=
  levClassic_reverse_aux (xs.length + ys.length) xs ys le_rfl

/-- Levenshtein distance is symmetric. -/
theorem levClassic_comm_aux :
    ∀ (n : Nat) (xs ys : List Char), xs.length + ys.length ≤ n →
      levClassic xs ys = levClassic ys xs := by
  intro n
  induction n with
  | zero =>
      intro xs ys h
      have hx : xs = [] := List.length_eq_zero.mp (by omega)
      have hy : ys = [] := List.length_eq_zero.mp (by omega)
      subst hx; subst hy; rfl
  | succ n ih =>
      intro xs ys h
      cases xs with
      | nil => simp [levClassic_nil_left, levClassic_nil_right]
      | cons x xs' =>
          cases ys with
          | nil => simp [levClassic_nil_left, levClassic_nil_right]
          | cons y ys' =>
              rw [levClassic_cons_cons x y, levClassic_cons_cons y x,
                ih xs' ys' (by simp at h ⊢; omega),
                ih (x :: xs') ys' (by simp at h ⊢; omega),
                ih xs' (y :: ys') (by simp at h ⊢; omega)]
              by_cases hxy : x = y
              · rw [if_pos hxy, if_pos hxy.symm]
              · rw [if_neg hxy, if_neg (fun hyx => hxy hyx.symm)]
                generalize levClassic ys' xs' = d
                generalize levClassic ys' (x :: xs') = u
                generalize levClassic (y :: ys') xs' = v
                ac_rfl

theorem levClassic_comm (xs ys : List Char) :
    levClassic xs ys = levClassic ys xs :=
  levClassic_comm_aux (xs.length + ys.length) xs ys le_rfl

theorem levClassic_self (xs : List Char) : levClassic xs xs = 0 := by
  induction xs with
  | nil => rw [levClassic_nil_left]; rfl
  | cons x rest ih => rw [levClassic_cons_cons, if_pos rfl, ih]

theorem distRowFrom_shape (qrev racc s1s : List Char) :
    ∃ tl, distRowFrom qrev racc s1s = levClassic racc qrev :: tl := by
  cases s1s <;> exact ⟨_, rfl⟩

/-- The inner loop of the dynamic program turns the row for a processed
    prefix of str2 into the tail of the row for that prefix extended by
    c2. -/
theorem buildRowAux_spec (c2 : Char) (qrev : List Char) :
    ∀ (s1s racc : List Char),
      buildRowAux c2 s1s (distRowFrom qrev racc s1s)
          (levClassic racc (c2 :: qrev))
        = (distRowFrom (c2 :: qrev) racc s1s).tail := by
  intro s1s
  induction s1s with
  | nil => intro racc; rfl
  | cons c1 rest ih =>
      intro racc
      obtain ⟨tl, htl⟩ := distRowFrom_shape qrev (c1 :: racc) rest
      have hrow : distRowFrom qrev racc (c1 :: rest)
          = levClassic racc qrev
            :: levClassic (c1 :: racc) qrev :: tl := by
        rw [distRowFrom, htl]
      rw [hrow]
      rw [buildRowAux]
      have hcell : (if c2 == c1 then levClassic racc qrev
          else min (levClassic racc qrev + 1)
                (min (levClassic racc (c2 :: qrev) + 1)
                  (levClassic (c1 :: racc) qrev + 1)))
          = levClassic (c1 :: racc) (c2 :: qrev) := by
        rw [levClassic_cons_cons c1 c2]
        by_cases h : c2 = c1
        · have hbeq : (c2 == c1) = true := beq_iff_eq.mpr h
          rw [hbeq, if_pos rfl, if_pos h.symm]
        · have hbeq : (c2 == c1) = false :=
            beq_eq_false_iff_ne.mpr h
          rw [hbeq]
          simp only [Bool.false_eq_true, if_false]
          rw [if_neg (show ¬c1 = c2 from fun h1 => h h1.symm)]
          generalize levClassic racc qrev = d
          generalize levClassic racc (c2 :: qrev) = u
          generalize levClassic (c1 :: racc) qrev = v
          omega
      rw [hcell, ← htl, ih (c1 :: racc)]
      obtain ⟨tl2, htl2⟩ := distRowFrom_shape (c2 :: qrev) (c1 :: racc) rest
      rw [distRowFrom, htl2]
      rfl

/-- The outer loop body of the dynamic program maps the row for a prefix
    of str2 to the row for the prefix extended by c2. -/
theorem buildRow_spec (c2 : Char) (qrev s1 : List Char) :
    buildRow c2 s1 (distRowFrom qrev [] s1) = distRowFrom (c2 :: qrev) [] s1 := by
  obtain ⟨tl, htl⟩ := distRowFrom_shape qrev [] s1
  have hhead : (distRowFrom qrev [] s1).headD 0 = levClassic [] qrev := by
    rw [htl]; rfl
  have hleft : (distRowFrom qrev [] s1).headD 0 + 1
      = levClassic [] (c2 :: qrev) := by
    rw [hhead, levClassic_nil_left, levClassic_nil_left]; rfl
  rw [buildRow, hleft, buildRowAux_spec c2 qrev s1 []]
  obtain ⟨tl2, htl2⟩ := distRowFrom_shape (c2 :: qrev) [] s1
  rw [htl2]
  rfl

theorem foldl_buildRow (s1 : List Char) :
    ∀ (s2rest qrev : List Char),
      s2rest.foldl (fun prev c2 => buildRow c2 s1 prev) (distRowFrom qrev [] s1)
        = distRowFrom (s2rest.reverse ++ qrev) [] s1 := by
  intro s2rest
  induction s2rest with
  | nil => intro qrev; simp
  | cons c2 rest ih =>
      intro qrev
      rw [List.foldl_cons, buildRow_spec, ih (c2 :: qrev)]
      rw [List.reverse_cons, List.append_assoc]
      rfl

theorem distRowFrom_nil_q :
    ∀ (s1s racc : List Char),
      distRowFrom [] racc s1s = List.range' racc.length (s1s.length + 1) := by
  intro s1s
  induction s1s with
  | nil =>
      intro racc
      rw [distRowFrom, levClassic_nil_right]
      rfl
  | cons c1 rest ih =>
      intro racc
      rw [distRowFrom, levClassic_nil_right, ih (c1 :: racc)]
      rw [List.range'_succ]
      rfl

theorem distRowFrom_getLastD :
    ∀ (s1s racc qrev : List Char),
      (distRowFrom qrev racc s1s).getLastD 0
        = levClassic (s1s.reverse ++ racc) qrev := by
  intro s1s
  induction s1s with
  | nil =>
      intro racc qrev
      rw [distRowFrom]
      rfl
  | cons c1 rest ih =>
      intro racc qrev
      obtain ⟨tl, htl⟩ := distRowFrom_shape qrev (c1 :: racc) rest
      have ih1 := ih (c1 :: racc) qrev
      rw [htl, List.getLastD_cons] at ih1
      rw [distRowFrom, htl, List.getLastD_cons, List.getLastD_cons, ih1,
        List.reverse_cons, List.append_assoc]
      rfl

/-- The dynamic program of app.js computes classic Levenshtein distance. -/
theorem levenshteinDistance_eq_levClassic (a b : List Char) :
    levenshteinDistance a b = levClassic a b := by
  rw [levenshteinDistance]
  have h0 : List.range (a.length + 1) = distRowFrom [] [] a := by
    rw [distRowFrom_nil_q, List.range_eq_range']
    rfl
  rw [h0, foldl_buildRow a b [], distRowFrom_getLastD]
  rw [List.append_nil, List.append_nil, levClassic_reverse]

/-- calculateSimilarity in closed form over classic Levenshtein
    distance. -/
theorem calculateSimilarity_formula (a b : List Char) :
    calculateSimilarity a b =
      if max a.length b.length = 0 then 1
      else ((max a.length b.length : ℚ) - (levClassic a b : ℚ))
            / (max a.length b.length : ℚ) := by
  rw [calculateSimilarity]
  by_cases hgt : a.length > b.length
  · rw [if_pos hgt]
    have hmax : max a.length b.length = a.length := by omega
    rw [← Nat.cast_max, hmax, levenshteinDistance_eq_levClassic]
  · rw [if_neg hgt]
    have hmax : max a.length b.length = b.length := by omega
    rw [← Nat.cast_max, hmax, levenshteinDistance_eq_levClassic,
      levClassic_comm b a]

theorem calculateSimilarity_self (a : List Char) :
    calculateSimilarity a a = 1 := by
  rw [calculateSimilarity_formula]
  by_cases h : max a.length a.length = 0
  · rw [if_pos h]
  · rw [if_neg h, levClassic_self]
    push_cast
    rw [sub_zero, div_self]
    exact_mod_cast fun h0 => h (by omega)

/-- C2: calculateSimilarity equals (max(len) - levenshtein)/max(len) with
    classic unit-cost Levenshtein distance and is 1 when both strings are
    empty (hence 1 on every equal pair); the last-resort fuzzy test
    accepts a candidate exactly when the similarity exceeds 0.8 and the
    length difference is at most 2; and correct answer beautiful accepts
    the typo beatiful while ugly is rejected. -/
theorem spec_c2_similarity_scorer :
    (∀ a b : List Char, calculateSimilarity a b =
      if max a.length b.length = 0 then 1
      else ((max a.length b.length : ℚ) - (levClassic a b : ℚ))
            / (max a.length b.length : ℚ))
    ∧ (∀ a : List Char, calculateSimilarity a a = 1)
    ∧ (∀ u p : List Char, fuzzyAccept u p = true ↔
        ((4 : ℚ)/5 < calculateSimilarity u p
          ∧ ((u.length : ℤ) - (p.length : ℤ)).natAbs ≤ 2))
    ∧ checkAnswerMatch [] "beatiful".data "beautiful".data = true
    ∧ checkAnswerMatch [] "ugly".data "beautiful".data = false := by
  refine ⟨calculateSimilarity_formula, calculateSimilarity_self, ?_,
    by with_unfolding_all decide, by with_unfolding_all decide⟩
  intro u p
  rw [fuzzyAccept]
  simp [Bool.and_eq_true, decide_eq_true_eq]

theorem spec_c2_witness :
    calculateSimilarity "ab".data "ab".data = 1
    ∧ (fuzzyAccept "ab".data "ab".data = true ↔
        ((4 : ℚ)/5 < calculateSimilarity "ab".data "ab".data
          ∧ (("ab".data.length : ℤ) - ("ab".data.length : ℤ)).natAbs ≤ 2)) :=
  ⟨spec_c2_similarity_scorer.2.1 "ab".data,
   spec_c2_similarity_scorer.2.2.1 "ab".data "ab".data⟩

end VocabPractice
